import Mathlib

/-!
Verification of the section-merge engine of the ai-service
(functions extract_section and apply_patch_to_section in main.py).

Python strings are modelled as lists of characters (Str); splitting a
document on the newline character, joining lines back, stripping
whitespace, and the two header regular expressions are embedded
directly from the source.  The float comparison `similarity > 0.8` is
modelled exactly as the rational comparison 4/5 < i/u, which agrees
with the double-precision computation for all realistic set sizes.
-/

namespace Writegeist

abbrev Str := List Char

/-- Python whitespace predicate used by str.strip, str.split and the
regex class backslash-s. -/
def pyWS (c : Char) : Bool :=
  c == ' ' || c == '\t' || c == '\n' || c == '\r' || c == '\x0b' || c == '\x0c'

/-- Model of Python markdown.split with separator newline. -/
def pySplitLines : Str → List Str
  | [] => [[]]
  | c :: rest =>
    if c = '\n' then [] :: pySplitLines rest
    else
      match pySplitLines rest with
      | [] => [[c]]
      | l :: ls => (c :: l) :: ls

/-- Model of joining a list of lines with the newline separator. -/
def joinNL : List Str → Str
  | [] => []
  | [l] => l
  | l :: l2 :: ls => l ++ '\n' :: joinNL (l2 :: ls)

/-- Drop leading Python whitespace (left part of str.strip). -/
def lstripWS (s : Str) : Str := s.dropWhile pyWS

/-- Drop trailing Python whitespace (right part of str.strip). -/
def rstripWS (s : Str) : Str := (s.reverse.dropWhile pyWS).reverse

/-- Model of Python str.strip with no arguments. -/
def pyStrip (s : Str) : Str := rstripWS (lstripWS s)

/-- Case-insensitive equality of two strings, as Python re.I matching
of an escaped literal (modelled with Char.toLower). -/
def lowerEq (a b : Str) : Bool := a.map Char.toLower == b.map Char.toLower

/-- Matching the tail of the section-header regex: the literal section
name followed by optional whitespace up to the end of the line. -/
def litThenWS (S rest : Str) : Bool :=
  lowerEq (rest.take S.length) S && (rest.drop S.length).all pyWS

/-- Matching one-or-more whitespace, then the literal section name,
then optional trailing whitespace (backtracking alternation). -/
def wsThenLit (S : Str) : Str → Bool
  | [] => false
  | c :: rs => pyWS c && (litThenWS S rs || wsThenLit S rs)

/-- Embeds re.match of the anchored pattern: optional whitespace, two
hash marks, whitespace, the escaped section name, optional whitespace,
end of line — with the IGNORECASE flag. -/
def matchesHeaderFor (S l : Str) : Bool :=
  match lstripWS l with
  | c1 :: c2 :: rest => c1 == '#' && c2 == '#' && wsThenLit S rest
  | _ => false

/-- Embeds re.match of the generic header pattern: optional
whitespace, two hash marks, then at least one whitespace character. -/
def matchesGenericHeader (l : Str) : Bool :=
  match lstripWS l with
  | c1 :: c2 :: c3 :: _ => c1 == '#' && c2 == '#' && pyWS c3
  | _ => false

/-- First index whose element satisfies the predicate, as the Python
for-loop with enumerate and break. -/
def findIdxO (p : Str → Bool) : List Str → Option Nat
  | [] => none
  | l :: ls => if p l then some 0 else (findIdxO p ls).map (· + 1)

/-- Index of the first line matching the header of the wanted section. -/
def findHeaderIdx (S : Str) (lines : List Str) : Option Nat :=
  findIdxO (matchesHeaderFor S) lines

/-- Index of the next generic header at or after start, or the number
of lines when there is none (the section runs to the end). -/
def findSectionEnd (lines : List Str) (start : Nat) : Nat :=
  match findIdxO matchesGenericHeader (lines.drop start) with
  | some k => start + k
  | none => lines.length

/-- The slice lines[start:e] of the Python code. -/
def sectionLinesOf (lines : List Str) (start e : Nat) : List Str :=
  (lines.drop start).take (e - start)

/-- Boolean prefix test on character lists. -/
def isPrefixB : Str → Str → Bool
  | [], _ => true
  | _ :: _, [] => false
  | a :: as, b :: bs => a == b && isPrefixB as bs

/-- Model of the Python substring operator `needle in hay`. -/
def isSubstring (n : Str) : Str → Bool
  | [] => n.isEmpty
  | c :: rest => isPrefixB n (c :: rest) || isSubstring n rest

/-- Drop blank lines at the start and the end of a list of lines (the
two while-pop loops of extract_section). -/
def dropBlankEdges (ls : List Str) : List Str :=
  ((ls.dropWhile fun l => (pyStrip l).isEmpty).reverse.dropWhile
    fun l => (pyStrip l).isEmpty).reverse

/-- Embeds extract_section of main.py. -/
def extract_section (markdown sectionName : Str) : Str :=
  match findHeaderIdx sectionName (pySplitLines markdown) with
  | none => []
  | some hi =>
    joinNL (dropBlankEdges (sectionLinesOf (pySplitLines markdown) (hi + 1)
      (findSectionEnd (pySplitLines markdown) (hi + 1))))

/-- Python words: maximal runs of non-whitespace characters. -/
def pyWords (s : Str) : List Str :=
  (s.splitOnP fun c => pyWS c).filter fun w => !w.isEmpty

/-- The set of lower-cased words of an item text. -/
def wordSet (s : Str) : Finset Str := (pyWords (s.map Char.toLower)).toFinset

/-- The bullet items of a list of lines: each line whose stripped text
starts with the marker, with the marker removed and stripped again. -/
def bulletItems (ls : List Str) : List Str :=
  ls.filterMap fun l =>
    let s := pyStrip l
    if s.take 2 = ['*', ' '] then some (pyStrip (s.drop 2)) else none

/-- The derived name of an item: the part before the first opening
parenthesis or em-dash, stripped. -/
def deriveName (item : Str) : Str :=
  pyStrip ((item.takeWhile fun c => c ≠ '(').takeWhile fun c => c ≠ '—')

/-- Exact case-insensitive duplicate check of two item texts. -/
def exactDup (newItem existItem : Str) : Bool := lowerEq existItem newItem

/-- Derived-name duplicate check: names equal case-insensitively and
the incoming name longer than two characters. -/
def nameDup (newItem existItem : Str) : Bool :=
  lowerEq (deriveName newItem) (deriveName existItem) &&
    decide (2 < (deriveName newItem).length)

/-- Similarity duplicate check: both item texts longer than ten
characters, both word sets non-empty, and the Jaccard similarity of
the word sets strictly above four fifths. -/
def simDup (newItem existItem : Str) : Bool :=
  decide (10 < newItem.length) && decide (10 < existItem.length) &&
  (decide (0 < (wordSet newItem).card) && decide (0 < (wordSet existItem).card) &&
   decide (4 * ((wordSet newItem) ∪ (wordSet existItem)).card <
           5 * ((wordSet newItem) ∩ (wordSet existItem)).card))

/-- One incoming/existing item pair triggers a rejection when any of
the three checks fires (they are tried in this order in the source;
every one of them returns the unchanged document). -/
def pairReject (n e : Str) : Bool := exactDup n e || nameDup n e || simDup n e

/-- The double loop of the bullet path: some incoming bullet item
against some existing bullet item triggers a rejection. -/
def bulletReject (incoming sectionLines : List Str) : Bool :=
  (bulletItems incoming).any fun n =>
    (bulletItems sectionLines).any fun e => pairReject n e

/-- The prose path check: some stripped non-blank incoming line equals
a stripped non-blank line of the existing section content. -/
def proseReject (newClean existingContent : Str) : Bool :=
  ((pySplitLines newClean).filterMap fun l =>
      let s := pyStrip l
      if s.isEmpty then none else some s).any fun l =>
    ((pySplitLines existingContent).filterMap fun l2 =>
      let s := pyStrip l2
      if s.isEmpty then none else some s).contains l

/-- The header line written when a new section is created. -/
def headerLineFor (S : Str) : Str := '#' :: '#' :: ' ' :: S

/-- The append step at the end of apply_patch_to_section: keep the
lines up to the section end, add a blank separator when the section is
non-empty and its last line is non-blank, add the patch lines
verbatim, then the rest of the document. -/
def appendToSection (lines : List Str) (start e : Nat)
    (newClean newContent : Str) : Str :=
  joinNL (lines.take e ++
    (if newClean.isEmpty then []
     else (if start < e ∧ ¬(pyStrip (lines.getD (e - 1) [])).isEmpty
           then [[]] else []) ++ pySplitLines newContent) ++
    lines.drop e)

/-- The branch of apply_patch_to_section taken when the section is
absent: append a blank separator when the last line is non-blank, the
new header, a blank line, then the patch lines. -/
def absentCase (lines : List Str) (sectionName newContent : Str) : Str :=
  joinNL ((if ¬lines.isEmpty ∧ ¬(pyStrip (lines.getLastD [])).isEmpty
           then lines ++ [[]] else lines) ++
    headerLineFor sectionName :: [] :: pySplitLines newContent)

/-- The branch of apply_patch_to_section taken when the section was
found: exact containment check, then the bullet or the prose
duplicate checks, then the append step. -/
def foundCase (markdown : Str) (lines : List Str) (newContent : Str)
    (start e : Nat) : Str :=
  if isSubstring (pyStrip newContent)
      (pyStrip (joinNL (sectionLinesOf lines start e))) then markdown
  else if (pyStrip newContent).take 2 = ['*', ' '] then
    if bulletReject (pySplitLines (pyStrip newContent))
        (sectionLinesOf lines start e) then markdown
    else appendToSection lines start e (pyStrip newContent) newContent
  else if proseReject (pyStrip newContent)
      (pyStrip (joinNL (sectionLinesOf lines start e))) then markdown
  else appendToSection lines start e (pyStrip newContent) newContent

/-- Embeds apply_patch_to_section of main.py. -/
def apply_patch_to_section (markdown sectionName newContent : Str) : Str :=
  match findHeaderIdx sectionName (pySplitLines markdown) with
  | none => absentCase (pySplitLines markdown) sectionName newContent
  | some hi =>
    foundCase markdown (pySplitLines markdown) newContent (hi + 1)
      (findSectionEnd (pySplitLines markdown) (hi + 1))

/-- Number of generic header lines of a document; each one opens a
section, so this counts the sections of the document. -/
def countHeaders (s : Str) : Nat :=
  (pySplitLines s).countP matchesGenericHeader

/-- Start boundary of the target region: the line after the header of
the first matching section, or the length of the document when the
section is absent. -/
def sectionStartOf (D S : Str) : Nat :=
  match findHeaderIdx S (pySplitLines D) with
  | none => (pySplitLines D).length
  | some hi => hi + 1

/-- End boundary of the target region, matching sectionStartOf. -/
def sectionEndOf (D S : Str) : Nat :=
  match findHeaderIdx S (pySplitLines D) with
  | none => (pySplitLines D).length
  | some hi => findSectionEnd (pySplitLines D) (hi + 1)

/-- Modelled from the spec: the classifier the specification words
describe — the first non-blank line of the patch content begins with
the bullet marker.  The source instead tests the stripped content. -/
def firstNonBlankStartsBullet (content : Str) : Bool :=
  match (pySplitLines content).find? fun l => !(pyStrip l).isEmpty with
  | some l => decide (l.take 2 = ['*', ' '])
  | none => false

end Writegeist

namespace Writegeist

theorem pySplitLines_ne_nil (s : Str) : pySplitLines s ≠ [] := by
  induction s with
  | nil => simp [pySplitLines]
  | cons c rest ih =>
    simp only [pySplitLines]
    split
    · simp
    · cases h : pySplitLines rest with
      | nil => simp
      | cons l ls => simp

theorem no_newline_of_mem_pySplitLines (s : Str) :
    ∀ l ∈ pySplitLines s, '\n' ∉ l := by
  induction s with
  | nil => simp [pySplitLines]
  | cons c rest ih =>
    intro l hl
    simp only [pySplitLines] at hl
    by_cases hc : c = '\n'
    · rw [if_pos hc] at hl
      rcases List.mem_cons.mp hl with h | h
      · simp [h]
      · exact ih l h
    · rw [if_neg hc] at hl
      cases h : pySplitLines rest with
      | nil => exact absurd h (pySplitLines_ne_nil rest)
      | cons l0 ls =>
        rw [h] at hl
        rcases List.mem_cons.mp hl with h1 | h1
        · subst h1
          intro hmem
          rcases List.mem_cons.mp hmem with h2 | h2
          · exact hc h2.symm
          · exact ih l0 (h ▸ List.mem_cons_self _ _) h2
        · exact ih l (h ▸ List.mem_cons_of_mem _ h1)

theorem joinNL_cons (l : Str) (ls : List Str) (h : ls ≠ []) :
    joinNL (l :: ls) = l ++ '\n' :: joinNL ls := by
  cases ls with
  | nil => exact absurd rfl h
  | cons l2 ls2 => rfl

theorem joinNL_pySplitLines (s : Str) : joinNL (pySplitLines s) = s := by
  induction s with
  | nil => rfl
  | cons c rest ih =>
    simp only [pySplitLines]
    by_cases hc : c = '\n'
    · rw [if_pos hc, joinNL_cons _ _ (pySplitLines_ne_nil rest), ih, hc]
      rfl
    · rw [if_neg hc]
      cases h : pySplitLines rest with
      | nil => exact absurd h (pySplitLines_ne_nil rest)
      | cons l ls =>
        cases ls with
        | nil =>
          rw [h] at ih
          simpa [joinNL] using congrArg (c :: ·) ih
        | cons l2 ls2 =>
          rw [h] at ih
          rw [joinNL_cons _ _ (by simp)]
          rw [joinNL_cons _ _ (by simp)] at ih
          simpa [joinNL_cons] using congrArg (c :: ·) ih

theorem pySplitLines_no_newline (l : Str) (h : '\n' ∉ l) :
    pySplitLines l = [l] := by
  induction l with
  | nil => rfl
  | cons c rest ih =>
    have hc : c ≠ '\n' := fun hh => h (hh ▸ List.mem_cons_self _ _)
    have hr : '\n' ∉ rest := fun hh => h (List.mem_cons_of_mem _ hh)
    simp only [pySplitLines, if_neg hc, ih hr]

theorem pySplitLines_line_append (A t : Str) (h : '\n' ∉ A) :
    pySplitLines (A ++ '\n' :: t) = A :: pySplitLines t := by
  induction A with
  | nil => simp [pySplitLines]
  | cons c rest ih =>
    have hc : c ≠ '\n' := fun hh => h (hh ▸ List.mem_cons_self _ _)
    have hr : '\n' ∉ rest := fun hh => h (List.mem_cons_of_mem _ hh)
    rw [List.cons_append]
    simp only [pySplitLines, if_neg hc]
    rw [ih hr]

theorem pySplitLines_joinNL (ls : List Str) (h1 : ls ≠ [])
    (h2 : ∀ l ∈ ls, '\n' ∉ l) : pySplitLines (joinNL ls) = ls := by
  induction ls with
  | nil => exact absurd rfl h1
  | cons l ls2 ih =>
    cases ls2 with
    | nil =>
      simpa [joinNL] using pySplitLines_no_newline l (h2 l (by simp))
    | cons l2 ls3 =>
      rw [joinNL_cons _ _ (by simp)]
      rw [pySplitLines_line_append _ _ (h2 l (by simp))]
      rw [ih (by simp) (fun x hx => h2 x (List.mem_cons_of_mem _ hx))]

theorem joinNL_append (A B : List Str) (hA : A ≠ []) (hB : B ≠ []) :
    joinNL (A ++ B) = joinNL A ++ '\n' :: joinNL B := by
  induction A with
  | nil => exact absurd rfl hA
  | cons l ls ih =>
    cases ls with
    | nil =>
      cases B with
      | nil => exact absurd rfl hB
      | cons b bs => simp [joinNL_cons, joinNL]
    | cons l2 ls2 =>
      rw [List.cons_append, joinNL_cons _ _ (by simp [hB]),
        joinNL_cons _ _ (by simp), ih (by simp)]
      simp

theorem pySplitLines_joinNL_prefix (A : List Str) (t : Str) (hA : A ≠ [])
    (h2 : ∀ l ∈ A, '\n' ∉ l) :
    pySplitLines (joinNL A ++ '\n' :: t) = A ++ pySplitLines t := by
  induction A with
  | nil => exact absurd rfl hA
  | cons l ls ih =>
    cases ls with
    | nil => simpa [joinNL] using pySplitLines_line_append l t (h2 l (by simp))
    | cons l2 ls2 =>
      rw [joinNL_cons _ _ (by simp), List.append_assoc, List.cons_append,
        pySplitLines_line_append _ _ (h2 l (by simp)),
        ih (by simp) (fun x hx => h2 x (List.mem_cons_of_mem _ hx))]
      rfl

end Writegeist

namespace Writegeist

theorem rstripWS_eq_rdropWhile (s : Str) : rstripWS s = s.rdropWhile pyWS := rfl

theorem pyStrip_cons_ws (c : Char) (s : Str) (hc : pyWS c = true) :
    pyStrip (c :: s) = pyStrip s := by
  simp [pyStrip, lstripWS, List.dropWhile_cons, hc]

theorem head_lstripWS_not_ws (s : Str) (c : Char) (t : Str)
    (h : lstripWS s = c :: t) : pyWS c = false := by
  induction s with
  | nil => simp [lstripWS] at h
  | cons a s' ih =>
    by_cases ha : pyWS a = true
    · rw [show lstripWS (a :: s') = lstripWS s' by
        simp [lstripWS, List.dropWhile_cons, ha]] at h
      exact ih h
    · rw [show lstripWS (a :: s') = a :: s' by
        simp [lstripWS, List.dropWhile_cons, ha]] at h
      injection h with h1 _
      rw [← h1]
      simpa using ha

theorem head_of_prefix (l₁ l₂ : Str) (c : Char) (t : Str)
    (h : l₁ <+: l₂) (he : l₁ = c :: t) : ∃ t2, l₂ = c :: t2 := by
  rcases h with ⟨u, hu⟩
  subst he
  exact ⟨t ++ u, by rw [← hu]; simp⟩

theorem pyStrip_head_not_ws (s : Str) (c : Char) (t : Str)
    (h : pyStrip s = c :: t) : pyWS c = false := by
  have hpre : pyStrip s <+: lstripWS s := by
    rw [pyStrip, rstripWS_eq_rdropWhile]
    exact List.rdropWhile_prefix pyWS (lstripWS s)
  rcases head_of_prefix _ _ _ _ hpre h with ⟨t2, ht2⟩
  exact head_lstripWS_not_ws s c t2 ht2

theorem pyStrip_last_not_ws (s : Str) (h : pyStrip s ≠ []) :
    pyWS (List.getLast (pyStrip s) h) = false := by
  have := List.rdropWhile_last_not pyWS (lstripWS s)
    (by rw [← rstripWS_eq_rdropWhile]; exact h)
  simpa using this

theorem lstripWS_pyStrip (s : Str) : lstripWS (pyStrip s) = pyStrip s := by
  cases h : pyStrip s with
  | nil => rfl
  | cons c t =>
    have := pyStrip_head_not_ws s c t h
    simp [lstripWS, List.dropWhile_cons, this]

theorem pyStrip_idem (s : Str) : pyStrip (pyStrip s) = pyStrip s := by
  rw [pyStrip, lstripWS_pyStrip]
  rw [pyStrip, rstripWS_eq_rdropWhile, rstripWS_eq_rdropWhile]
  exact List.rdropWhile_idempotent pyWS (lstripWS s)

theorem pyStrip_infix_self (s : Str) : pyStrip s <:+: s := by
  have h1 : pyStrip s <+: lstripWS s := by
    rw [pyStrip, rstripWS_eq_rdropWhile]
    exact List.rdropWhile_prefix pyWS (lstripWS s)
  have h2 : lstripWS s <:+ s := List.dropWhile_suffix pyWS
  exact h1.isInfix.trans h2.isInfix

theorem infix_lstripWS (t s : Str) (c : Char) (t' : Str) (he : t = c :: t')
    (hc : pyWS c = false) (h : t <:+: s) : t <:+: lstripWS s := by
  induction s with
  | nil =>
    rw [List.infix_nil] at h
    rw [h] at he
    exact absurd he (by simp)
  | cons a s' ih =>
    rcases List.infix_cons_iff.mp h with hp | hi
    · by_cases ha : pyWS a = true
      · rcases head_of_prefix _ _ _ _ hp he with ⟨t2, ht2⟩
        have : a = c := by injection ht2
        rw [this] at ha
        rw [ha] at hc
        exact absurd hc (by simp)
      · have : lstripWS (a :: s') = a :: s' := by
          simp [lstripWS, List.dropWhile_cons, ha]
        rw [this]
        exact h
    · by_cases ha : pyWS a = true
      · have : lstripWS (a :: s') = lstripWS s' := by
          simp [lstripWS, List.dropWhile_cons, ha]
        rw [this]
        exact ih hi
      · have : lstripWS (a :: s') = a :: s' := by
          simp [lstripWS, List.dropWhile_cons, ha]
        rw [this]
        exact h

theorem infix_rstripWS (t s : Str) (ht : t ≠ [])
    (hc : pyWS (List.getLast t ht) = false) (h : t <:+: s) :
    t <:+: rstripWS s := by
  have hrev : t.reverse <:+: s.reverse := List.reverse_infix.mpr h
  have hne : t.reverse ≠ [] := by simpa using ht
  cases he : t.reverse with
  | nil => exact absurd he hne
  | cons c u =>
    have hhead : c = List.getLast t ht := by
      have h1 : t.reverse.head? = t.getLast? := List.head?_reverse t
      rw [he, List.getLast?_eq_getLast t ht] at h1
      simpa using h1
    have h2 : t.reverse <:+: s.reverse.dropWhile pyWS := by
      refine infix_lstripWS _ _ c u he ?_ hrev
      rw [hhead]; exact hc
    have h3 : t.reverse.reverse <:+: (s.reverse.dropWhile pyWS).reverse :=
      List.reverse_infix.mpr h2
    simpa [rstripWS] using h3

theorem infix_pyStrip (t s : Str) (ht : pyStrip t = t) (h : t <:+: s) :
    t <:+: pyStrip s := by
  cases hte : t with
  | nil => exact List.nil_infix
  | cons c t' =>
    have hhead : pyWS c = false := pyStrip_head_not_ws t c t' (by rw [ht, hte])
    have htne : t ≠ [] := by rw [hte]; simp
    have hlast : pyWS (List.getLast t htne) = false := by
      have := pyStrip_last_not_ws t (by rw [ht]; exact htne)
      simpa [ht] using this
    rw [← hte]
    have h1 : t <:+: lstripWS s := infix_lstripWS t s c t' hte hhead h
    exact infix_rstripWS t (lstripWS s) htne hlast h1

end Writegeist

namespace Writegeist

theorem isPrefixB_iff (a b : Str) : isPrefixB a b = true ↔ a <+: b := by
  induction a generalizing b with
  | nil => simp [isPrefixB]
  | cons x xs ih =>
    cases b with
    | nil =>
      simp only [isPrefixB]
      constructor
      · intro h; exact absurd h (by simp)
      · intro h
        rcases h with ⟨u, hu⟩
        simp at hu
    | cons y ys =>
      simp only [isPrefixB, Bool.and_eq_true, beq_iff_eq]
      rw [ih ys]
      constructor
      · rintro ⟨rfl, h2⟩
        rcases h2 with ⟨u, hu⟩
        exact ⟨u, by rw [List.cons_append, hu]⟩
      · intro h
        rcases h with ⟨u, hu⟩
        injection hu with h1 h2
        exact ⟨h1, ⟨u, h2⟩⟩

theorem isSubstring_iff (n h : Str) : isSubstring n h = true ↔ n <:+: h := by
  induction h with
  | nil =>
    simp only [isSubstring, List.isEmpty_iff, List.infix_nil]
  | cons c rest ih =>
    simp only [isSubstring, Bool.or_eq_true, isPrefixB_iff, ih,
      List.infix_cons_iff]

theorem isSubstring_nil_left (h : Str) : isSubstring [] h = true :=
  (isSubstring_iff [] h).mpr List.nil_infix

theorem isSubstring_refl (s : Str) : isSubstring s s = true :=
  (isSubstring_iff s s).mpr (List.infix_refl s)

theorem findIdxO_eq_none_iff (p : Str → Bool) (l : List Str) :
    findIdxO p l = none ↔ ∀ x ∈ l, p x = false := by
  induction l with
  | nil => simp [findIdxO]
  | cons a as ih =>
    simp only [findIdxO]
    by_cases ha : p a = true
    · simp [ha]
    · rw [if_neg ha]
      constructor
      · intro h x hx
        have h2 : findIdxO p as = none := by
          cases hfa : findIdxO p as with
          | none => rfl
          | some j => rw [hfa] at h; simp at h
        rcases List.mem_cons.mp hx with h1 | h1
        · rw [h1]; simpa using ha
        · exact ih.mp h2 x h1
      · intro h
        have h2 : findIdxO p as = none :=
          ih.mpr fun x hx => h x (List.mem_cons_of_mem _ hx)
        rw [h2]
        rfl

theorem findIdxO_append_some (p : Str → Bool) (A B : List Str) (i : Nat)
    (h : findIdxO p A = some i) : findIdxO p (A ++ B) = some i := by
  induction A generalizing i with
  | nil => simp [findIdxO] at h
  | cons a as ih =>
    rw [List.cons_append]
    simp only [findIdxO] at h ⊢
    by_cases ha : p a = true
    · rw [if_pos ha] at h ⊢; exact h
    · rw [if_neg ha] at h ⊢
      cases hfa : findIdxO p as with
      | none => rw [hfa] at h; simp at h
      | some j =>
        rw [hfa] at h
        rw [ih j hfa]
        exact h

theorem findIdxO_append_none (p : Str → Bool) (A B : List Str)
    (h : findIdxO p A = none) :
    findIdxO p (A ++ B) = (findIdxO p B).map (· + A.length) := by
  induction A with
  | nil => simp [findIdxO]
  | cons a as ih =>
    rw [List.cons_append]
    simp only [findIdxO] at h ⊢
    by_cases ha : p a = true
    · rw [if_pos ha] at h; simp at h
    · rw [if_neg ha] at h ⊢
      have h2 : findIdxO p as = none := by
        cases hfa : findIdxO p as with
        | none => rfl
        | some j => rw [hfa] at h; simp at h
      rw [ih h2]
      cases findIdxO p B with
      | none => simp
      | some j =>
        simp only [Option.map_some', List.length_cons, Option.some.injEq]
        omega

end Writegeist

namespace Writegeist

theorem findIdxO_some_facts (p : Str → Bool) (l : List Str) (i : Nat)
    (h : findIdxO p l = some i) :
    i < l.length ∧ (∀ x ∈ l.take i, p x = false) ∧
      ∃ y ys, l.drop i = y :: ys ∧ p y = true := by
  induction l generalizing i with
  | nil => simp [findIdxO] at h
  | cons a as ih =>
    simp only [findIdxO] at h
    by_cases ha : p a = true
    · rw [if_pos ha] at h
      injection h with h1
      rw [← h1]
      refine ⟨by simp, by simp, a, as, by simp, ha⟩
    · rw [if_neg ha] at h
      cases hfa : findIdxO p as with
      | none => rw [hfa] at h; simp at h
      | some j =>
        rw [hfa] at h
        simp only [Option.map_some', Option.some.injEq] at h
        rcases ih j hfa with ⟨h1, h2, y, ys, h3, h4⟩
        refine ⟨by simp; omega, ?_, y, ys, ?_, h4⟩
        · intro x hx
          rw [← h] at hx
          rcases List.mem_cons.mp (by simpa using hx) with hc | hc
          · rw [hc]; simpa using ha
          · exact h2 x hc
        · rw [← h]
          simpa using h3

theorem findIdxO_take_of_lt (p : Str → Bool) (l : List Str) (i n : Nat)
    (h : findIdxO p l = some i) (hn : i < n) :
    findIdxO p (l.take n) = some i := by
  induction l generalizing i n with
  | nil => simp [findIdxO] at h
  | cons a as ih =>
    simp only [findIdxO] at h
    cases n with
    | zero => omega
    | succ m =>
      rw [List.take_succ_cons]
      simp only [findIdxO]
      by_cases ha : p a = true
      · rw [if_pos ha] at h ⊢; exact h
      · rw [if_neg ha] at h ⊢
        cases hfa : findIdxO p as with
        | none => rw [hfa] at h; simp at h
        | some j =>
          rw [hfa] at h
          simp only [Option.map_some', Option.some.injEq] at h
          rw [ih j m hfa (by omega), Option.map_some', h]

theorem findIdxO_congr (p q : Str → Bool) (l : List Str)
    (h : ∀ x, p x = q x) : findIdxO p l = findIdxO q l := by
  induction l with
  | nil => rfl
  | cons a as ih => simp only [findIdxO, h a, ih]

end Writegeist

namespace Writegeist

theorem pyWS_hash : pyWS '#' = false := by decide

theorem pyWS_space : pyWS ' ' = true := by decide

theorem pyWS_newline : pyWS '\n' = true := by decide

theorem litThenWS_self (S : Str) : litThenWS S S = true := by
  simp [litThenWS, lowerEq, List.take_length, List.drop_length]

theorem matchesHeaderFor_nil (S : Str) : matchesHeaderFor S [] = false := rfl

theorem matchesGenericHeader_nil : matchesGenericHeader [] = false := rfl

theorem lstripWS_headerLine (S : Str) :
    lstripWS (headerLineFor S) = headerLineFor S := by
  simp [lstripWS, headerLineFor, List.dropWhile_cons, pyWS_hash]

theorem matchesHeaderFor_headerLine (S : Str) :
    matchesHeaderFor S (headerLineFor S) = true := by
  have h1 := lstripWS_headerLine S
  rw [headerLineFor] at h1
  simp only [matchesHeaderFor, headerLineFor, h1]
  simp [wsThenLit, litThenWS_self, pyWS_space]

theorem matchesGenericHeader_headerLine (S : Str) :
    matchesGenericHeader (headerLineFor S) = true := by
  have h1 := lstripWS_headerLine S
  rw [headerLineFor] at h1
  simp only [matchesGenericHeader, headerLineFor, h1]
  exact pyWS_space

theorem apply_eq_absent (D S P : Str)
    (h : findHeaderIdx S (pySplitLines D) = none) :
    apply_patch_to_section D S P = absentCase (pySplitLines D) S P := by
  unfold apply_patch_to_section
  rw [h]

theorem apply_eq_found (D S P : Str) (hi : Nat)
    (h : findHeaderIdx S (pySplitLines D) = some hi) :
    apply_patch_to_section D S P =
      foundCase D (pySplitLines D) P (hi + 1)
        (findSectionEnd (pySplitLines D) (hi + 1)) := by
  unfold apply_patch_to_section
  rw [h]

theorem foundCase_contained (D : Str) (lines : List Str) (P : Str)
    (start e : Nat)
    (h : isSubstring (pyStrip P)
      (pyStrip (joinNL (sectionLinesOf lines start e))) = true) :
    foundCase D lines P start e = D := by
  unfold foundCase
  rw [if_pos h]

theorem foundCase_bullet (D : Str) (lines : List Str) (P : Str)
    (start e : Nat)
    (hna : isSubstring (pyStrip P)
      (pyStrip (joinNL (sectionLinesOf lines start e))) = false)
    (hb : (pyStrip P).take 2 = ['*', ' ']) :
    foundCase D lines P start e =
      if bulletReject (pySplitLines (pyStrip P))
          (sectionLinesOf lines start e) = true then D
      else appendToSection lines start e (pyStrip P) P := by
  unfold foundCase
  rw [if_neg (by rw [hna]; simp), if_pos hb]

theorem foundCase_prose (D : Str) (lines : List Str) (P : Str)
    (start e : Nat)
    (hna : isSubstring (pyStrip P)
      (pyStrip (joinNL (sectionLinesOf lines start e))) = false)
    (hb : (pyStrip P).take 2 ≠ ['*', ' ']) :
    foundCase D lines P start e =
      if proseReject (pyStrip P)
          (pyStrip (joinNL (sectionLinesOf lines start e))) = true then D
      else appendToSection lines start e (pyStrip P) P := by
  unfold foundCase
  rw [if_neg (by rw [hna]; simp), if_neg hb]

end Writegeist

namespace Writegeist

/-- C2: when the target section exists (case-insensitive match) and the
stripped patch content is a contiguous substring of the stripped
section content, compared as full text, apply_patch_to_section returns
the input document unchanged. -/
theorem C2_exact_containment (D S P : Str) (hi : Nat)
    (hfind : findHeaderIdx S (pySplitLines D) = some hi)
    (hsub : isSubstring (pyStrip P)
      (pyStrip (joinNL (sectionLinesOf (pySplitLines D) (hi + 1)
        (findSectionEnd (pySplitLines D) (hi + 1))))) = true) :
    apply_patch_to_section D S P = D := by
  rw [apply_eq_found D S P hi hfind]
  exact foundCase_contained D _ P _ _ hsub

theorem C2_witness :
    findHeaderIdx ("A".toList) (pySplitLines ("## A\nhi there".toList)) =
        some 0 ∧
      isSubstring (pyStrip ("hi there".toList))
        (pyStrip (joinNL (sectionLinesOf
          (pySplitLines ("## A\nhi there".toList)) 1
          (findSectionEnd (pySplitLines ("## A\nhi there".toList)) 1)))) =
        true ∧
      apply_patch_to_section ("## A\nhi there".toList) ("A".toList)
        ("hi there".toList) = ("## A\nhi there".toList) :=
  ⟨by decide, by decide,
    C2_exact_containment ("## A\nhi there".toList) ("A".toList)
      ("hi there".toList) 0 (by decide) (by decide)⟩

/-- C10: when the target section exists, a patch whose content is
empty or whitespace-only strips to the empty string, the containment
check treats it as already present, and the document is returned
unchanged. -/
theorem C10_blank_patch_unchanged (D S P : Str) (hi : Nat)
    (hfind : findHeaderIdx S (pySplitLines D) = some hi)
    (hblank : pyStrip P = []) :
    apply_patch_to_section D S P = D := by
  rw [apply_eq_found D S P hi hfind]
  apply foundCase_contained
  rw [hblank]
  exact isSubstring_nil_left _

theorem C10_witness :
    findHeaderIdx ("A".toList) (pySplitLines ("## A\nhi".toList)) = some 0 ∧
      pyStrip ("  \n ".toList) = [] ∧
      apply_patch_to_section ("## A\nhi".toList) ("A".toList)
        ("  \n ".toList) = ("## A\nhi".toList) :=
  ⟨by decide, by decide,
    C10_blank_patch_unchanged ("## A\nhi".toList) ("A".toList)
      ("  \n ".toList) 0 (by decide) (by decide)⟩

/-- C3: in the bullet-block path, when some incoming bullet item and
some existing bullet item have case-insensitively equal derived names
of length above two, the whole patch is rejected and the document is
returned unchanged. -/
theorem C3_bullet_name_reject (D S P : Str) (hi : Nat)
    (hfind : findHeaderIdx S (pySplitLines D) = some hi)
    (hb : (pyStrip P).take 2 = ['*', ' '])
    (hex : ∃ n ∈ bulletItems (pySplitLines (pyStrip P)),
      ∃ ex ∈ bulletItems (sectionLinesOf (pySplitLines D) (hi + 1)
        (findSectionEnd (pySplitLines D) (hi + 1))),
      lowerEq (deriveName n) (deriveName ex) = true ∧
        2 < (deriveName n).length) :
    apply_patch_to_section D S P = D := by
  rw [apply_eq_found D S P hi hfind]
  by_cases hc : isSubstring (pyStrip P)
      (pyStrip (joinNL (sectionLinesOf (pySplitLines D) (hi + 1)
        (findSectionEnd (pySplitLines D) (hi + 1))))) = true
  · exact foundCase_contained D _ P _ _ hc
  · rw [foundCase_bullet D _ P _ _ (by simpa using hc) hb]
    have hrej : bulletReject (pySplitLines (pyStrip P))
        (sectionLinesOf (pySplitLines D) (hi + 1)
          (findSectionEnd (pySplitLines D) (hi + 1))) = true := by
      rcases hex with ⟨n, hn, ex, hexm, h1, h2⟩
      unfold bulletReject
      rw [List.any_eq_true]
      refine ⟨n, hn, ?_⟩
      rw [List.any_eq_true]
      refine ⟨ex, hexm, ?_⟩
      simp [pairReject, nameDup, h1, h2]
    rw [if_pos hrej]

theorem C3_witness :
    (pyStrip ("* Max — b".toList)).take 2 = ['*', ' '] ∧
      apply_patch_to_section ("## Characters\n* Max — a".toList)
        ("Characters".toList) ("* Max — b".toList) =
        ("## Characters\n* Max — a".toList) :=
  ⟨by decide,
    C3_bullet_name_reject ("## Characters\n* Max — a".toList)
      ("Characters".toList) ("* Max — b".toList) 0 (by decide) (by decide)
      (by decide)⟩

end Writegeist

namespace Writegeist

/-- C4: for bullet item texts both longer than ten characters, the
similarity rule rejects exactly when the Jaccard similarity of the
lower-cased word sets is strictly greater than 0.8; a pair whose
similarity is exactly 0.8 is not rejected by this rule. -/
theorem C4_similarity_threshold_strict (n e : Str)
    (hn : 10 < n.length) (he : 10 < e.length) :
    simDup n e = true ↔
      (4 : ℚ) / 5 < ((wordSet n ∩ wordSet e).card : ℚ) /
        ((wordSet n ∪ wordSet e).card : ℚ) := by
  unfold simDup
  rw [decide_eq_true hn, decide_eq_true he]
  simp only [Bool.true_and, Bool.and_eq_true, decide_eq_true_eq]
  constructor
  · rintro ⟨⟨hn0, -⟩, hlt⟩
    have hu : 0 < (wordSet n ∪ wordSet e).card :=
      lt_of_lt_of_le hn0 (Finset.card_le_card Finset.subset_union_left)
    rw [div_lt_div_iff₀ (by norm_num) (by exact_mod_cast hu)]
    have h2 : 4 * (wordSet n ∪ wordSet e).card <
        (wordSet n ∩ wordSet e).card * 5 := by omega
    exact_mod_cast h2
  · intro h
    by_cases hu0 : (wordSet n ∪ wordSet e).card = 0
    · rw [hu0] at h
      norm_num at h
    · have hu : 0 < (wordSet n ∪ wordSet e).card := Nat.pos_of_ne_zero hu0
      rw [div_lt_div_iff₀ (by norm_num) (by exact_mod_cast hu)] at h
      have hlt : 4 * (wordSet n ∪ wordSet e).card <
          5 * (wordSet n ∩ wordSet e).card := by
        have h2 : (4 * (wordSet n ∪ wordSet e).card : ℚ) <
            (wordSet n ∩ wordSet e).card * 5 := by linarith
        have h3 : (4 * (wordSet n ∪ wordSet e).card : ℕ) <
            (wordSet n ∩ wordSet e).card * 5 := by exact_mod_cast h2
        omega
      have hi0 : 0 < (wordSet n ∩ wordSet e).card := by omega
      have hcn : 0 < (wordSet n).card :=
        lt_of_lt_of_le hi0 (Finset.card_le_card Finset.inter_subset_left)
      have hce : 0 < (wordSet e).card :=
        lt_of_lt_of_le hi0 (Finset.card_le_card Finset.inter_subset_right)
      exact ⟨⟨hcn, hce⟩, hlt⟩

theorem C4_witness :
    (10 < ("alpha beta gamma delta".toList).length ∧
      10 < ("alpha beta gamma delta omega".toList).length) ∧
      simDup ("alpha beta gamma delta".toList)
        ("alpha beta gamma delta omega".toList) = false := by
  refine ⟨⟨by decide, by decide⟩, ?_⟩
  have h := C4_similarity_threshold_strict ("alpha beta gamma delta".toList)
    ("alpha beta gamma delta omega".toList) (by decide) (by decide)
  cases hs : simDup ("alpha beta gamma delta".toList)
      ("alpha beta gamma delta omega".toList) with
  | false => rfl
  | true =>
    exfalso
    have h2 := h.mp hs
    rw [show (wordSet ("alpha beta gamma delta".toList) ∩
        wordSet ("alpha beta gamma delta omega".toList)).card = 4 by decide,
      show (wordSet ("alpha beta gamma delta".toList) ∪
        wordSet ("alpha beta gamma delta omega".toList)).card = 5 by decide]
      at h2
    norm_num at h2

end Writegeist

namespace Writegeist

theorem newClean_ne_nil_of_not_contained (P existing : Str)
    (hnc : isSubstring (pyStrip P) existing = false) : pyStrip P ≠ [] := by
  intro h
  rw [h, isSubstring_nil_left existing] at hnc
  exact absurd hnc (by simp)

/-- C5: in the prose path (section found, containment check failed,
stripped content not starting with the bullet marker), a stripped
line match rejects the whole patch and leaves the document unchanged,
and otherwise the whole block is appended verbatim at the end of the
section, preceded by a blank separator line exactly when the section
is non-empty and its last line is non-blank. -/
theorem C5_prose_all_or_nothing (D S P : Str) (hi e : Nat)
    (hfind : findHeaderIdx S (pySplitLines D) = some hi)
    (he : e = findSectionEnd (pySplitLines D) (hi + 1))
    (hnc : isSubstring (pyStrip P)
      (pyStrip (joinNL (sectionLinesOf (pySplitLines D) (hi + 1) e))) = false)
    (hb : (pyStrip P).take 2 ≠ ['*', ' ']) :
    (proseReject (pyStrip P)
        (pyStrip (joinNL (sectionLinesOf (pySplitLines D) (hi + 1) e))) = true →
      apply_patch_to_section D S P = D) ∧
    (proseReject (pyStrip P)
        (pyStrip (joinNL (sectionLinesOf (pySplitLines D) (hi + 1) e))) = false →
      apply_patch_to_section D S P =
        joinNL ((pySplitLines D).take e ++
          (if hi + 1 < e ∧ ¬(pyStrip ((pySplitLines D).getD (e - 1) [])).isEmpty
           then [[]] else []) ++
          pySplitLines P ++ (pySplitLines D).drop e)) := by
  subst he
  rw [apply_eq_found D S P hi hfind,
    foundCase_prose D _ P _ _ hnc hb]
  constructor
  · intro h
    rw [if_pos h]
  · intro h
    rw [if_neg (by rw [h]; simp)]
    unfold appendToSection
    rw [if_neg (by
      simpa using newClean_ne_nil_of_not_contained P _ hnc)]
    simp [List.append_assoc]

theorem C5_witness :
    ((pyStrip ("New prose line.".toList)).take 2 ≠ ['*', ' '] ∧
      proseReject (pyStrip ("New prose line.".toList))
        (pyStrip (joinNL (sectionLinesOf
          (pySplitLines ("## Setting\n\nA quiet village.".toList)) 1 3))) =
        false) ∧
      apply_patch_to_section ("## Setting\n\nA quiet village.".toList)
        ("Setting".toList) ("New prose line.".toList) =
        ("## Setting\n\nA quiet village.\n\nNew prose line.".toList) := by
  refine ⟨⟨by decide, by decide⟩, ?_⟩
  have h := (C5_prose_all_or_nothing ("## Setting\n\nA quiet village.".toList)
    ("Setting".toList) ("New prose line.".toList) 0 3 (by decide) (by decide)
    (by decide) (by decide)).2 (by decide)
  rw [h]
  decide

end Writegeist

namespace Writegeist

/-- C9 counterexample: the patch content has an indented first bullet,
so its first non-blank line does not begin with the marker, yet the
merge rejects it through the bullet name rule and returns the document
unchanged; the prose rules would not have rejected it and would have
appended it, producing a different document.  The classifier of the
source tests the stripped content, not the first non-blank line. -/
theorem C9_counterexample :
    firstNonBlankStartsBullet ("  * Max — b".toList) = false ∧
      apply_patch_to_section ("## Characters\n* Max — a".toList)
        ("Characters".toList) ("  * Max — b".toList) =
        ("## Characters\n* Max — a".toList) ∧
      proseReject (pyStrip ("  * Max — b".toList))
        (pyStrip (joinNL (sectionLinesOf
          (pySplitLines ("## Characters\n* Max — a".toList)) 1 2))) = false ∧
      appendToSection (pySplitLines ("## Characters\n* Max — a".toList)) 1 2
        (pyStrip ("  * Max — b".toList)) ("  * Max — b".toList) ≠
        ("## Characters\n* Max — a".toList) :=
  ⟨by decide, by decide, by decide, by decide⟩

/-- C9 amended: classification uses the stripped patch content, so a
patch goes through the bullet rules exactly when its stripped content
begins with the marker (leading whitespace, including indentation of
the first bullet line, is removed first); everything else goes through
the prose rules. -/
theorem C9_amended_classifier (D S P : Str) (hi e : Nat)
    (hfind : findHeaderIdx S (pySplitLines D) = some hi)
    (he : e = findSectionEnd (pySplitLines D) (hi + 1))
    (hnc : isSubstring (pyStrip P)
      (pyStrip (joinNL (sectionLinesOf (pySplitLines D) (hi + 1) e))) = false) :
    ((pyStrip P).take 2 = ['*', ' '] →
      apply_patch_to_section D S P =
        if bulletReject (pySplitLines (pyStrip P))
            (sectionLinesOf (pySplitLines D) (hi + 1) e) = true then D
        else appendToSection (pySplitLines D) (hi + 1) e (pyStrip P) P) ∧
    ((pyStrip P).take 2 ≠ ['*', ' '] →
      apply_patch_to_section D S P =
        if proseReject (pyStrip P)
            (pyStrip (joinNL (sectionLinesOf (pySplitLines D) (hi + 1) e))) =
            true then D
        else appendToSection (pySplitLines D) (hi + 1) e (pyStrip P) P) := by
  subst he
  rw [apply_eq_found D S P hi hfind]
  constructor
  · intro hb
    exact foundCase_bullet D _ P _ _ hnc hb
  · intro hb
    exact foundCase_prose D _ P _ _ hnc hb

theorem C9_amended_witness :
    (pyStrip ("  * Zara — c".toList)).take 2 = ['*', ' '] ∧
      apply_patch_to_section ("## Characters\n* Max — a".toList)
        ("Characters".toList) ("  * Zara — c".toList) =
        ("## Characters\n* Max — a\n\n  * Zara — c".toList) := by
  refine ⟨by decide, ?_⟩
  have h := (C9_amended_classifier ("## Characters\n* Max — a".toList)
    ("Characters".toList) ("  * Zara — c".toList) 0 2 (by decide) (by decide)
    (by decide)).1 (by decide)
  rw [h]
  decide

end Writegeist

namespace Writegeist

/-- C6 counterexample: with an absent target section and a patch whose
content is itself a header line, the appended region parses as two new
sections, not one; the claim that the document gains exactly one new
trailing section fails for this patch. -/
theorem C6_counterexample :
    findHeaderIdx ("S".toList) (pySplitLines ("".toList)) = none ∧
      countHeaders (apply_patch_to_section ("".toList) ("S".toList)
        ("## T".toList)) = countHeaders ("".toList) + 2 :=
  ⟨by decide, by decide⟩

/-- C6 amended: with no matching section, the merge appends a blank
separator line when the last line of the document is non-blank, then
the header line made of the marker and the name exactly as given, a
blank line, and the patch content lines verbatim; when the section
name has no newline and no patch line itself matches the generic
header pattern, the document gains exactly one new section. -/
theorem C6_amended_absent_append (D S P : Str)
    (hfind : findHeaderIdx S (pySplitLines D) = none) :
    apply_patch_to_section D S P =
      joinNL ((if ¬(pySplitLines D).isEmpty ∧
            ¬(pyStrip ((pySplitLines D).getLastD [])).isEmpty
          then pySplitLines D ++ [[]] else pySplitLines D) ++
        headerLineFor S :: [] :: pySplitLines P) ∧
    ('\n' ∉ S → (∀ l ∈ pySplitLines P, matchesGenericHeader l = false) →
      countHeaders (apply_patch_to_section D S P) = countHeaders D + 1) := by
  have h1 : apply_patch_to_section D S P =
      joinNL ((if ¬(pySplitLines D).isEmpty ∧
            ¬(pyStrip ((pySplitLines D).getLastD [])).isEmpty
          then pySplitLines D ++ [[]] else pySplitLines D) ++
        headerLineFor S :: [] :: pySplitLines P) := by
    rw [apply_eq_absent D S P hfind]
    rfl
  refine ⟨h1, ?_⟩
  intro hS hP
  rw [h1]
  have hnoNL : ∀ l ∈ ((if ¬(pySplitLines D).isEmpty ∧
        ¬(pyStrip ((pySplitLines D).getLastD [])).isEmpty
      then pySplitLines D ++ [[]] else pySplitLines D) ++
      headerLineFor S :: [] :: pySplitLines P), '\n' ∉ l := by
    intro l hl
    rcases List.mem_append.mp hl with h | h
    · have h2 : l ∈ pySplitLines D ∨ l = [] := by
        split at h
        · rcases List.mem_append.mp h with h3 | h3
          · exact Or.inl h3
          · exact Or.inr (by simpa using h3)
        · exact Or.inl h
      rcases h2 with h3 | h3
      · exact no_newline_of_mem_pySplitLines D l h3
      · simp [h3]
    · rcases List.mem_cons.mp h with h3 | h3
      · rw [h3, headerLineFor]
        intro hmem
        rcases List.mem_cons.mp hmem with h4 | h4
        · exact absurd h4 (by decide)
        · rcases List.mem_cons.mp h4 with h5 | h5
          · exact absurd h5 (by decide)
          · rcases List.mem_cons.mp h5 with h6 | h6
            · exact absurd h6 (by decide)
            · exact hS h6
      · rcases List.mem_cons.mp h3 with h4 | h4
        · simp [h4]
        · exact no_newline_of_mem_pySplitLines P l h4
  rw [countHeaders, pySplitLines_joinNL _ (by simp) hnoNL]
  rw [List.countP_append, List.countP_cons, List.countP_cons]
  have hcP : (pySplitLines P).countP matchesGenericHeader = 0 :=
    List.countP_eq_zero.mpr (by
      intro a ha
      simp [hP a ha])
  have hc2 : ((if ¬(pySplitLines D).isEmpty ∧
        ¬(pyStrip ((pySplitLines D).getLastD [])).isEmpty
      then pySplitLines D ++ [[]] else pySplitLines D)).countP
        matchesGenericHeader = countHeaders D := by
    rw [countHeaders]
    split
    · rw [List.countP_append]
      simp [matchesGenericHeader_nil]
    · rfl
  rw [hcP, hc2, matchesGenericHeader_headerLine, matchesGenericHeader_nil]
  simp

theorem C6_amended_witness :
    findHeaderIdx ("Ideas-Notes".toList)
        (pySplitLines ("Intro text".toList)) = none ∧
      apply_patch_to_section ("Intro text".toList) ("Ideas-Notes".toList)
        ("A talking cat appears.".toList) =
        ("Intro text\n\n## Ideas-Notes\n\nA talking cat appears.".toList) ∧
      countHeaders ("Intro text\n\n## Ideas-Notes\n\nA talking cat appears.".toList) =
        countHeaders ("Intro text".toList) + 1 := by
  refine ⟨by decide, ?_, by decide⟩
  have h := (C6_amended_absent_append ("Intro text".toList)
    ("Ideas-Notes".toList) ("A talking cat appears.".toList) (by decide)).1
  rw [h]
  decide

end Writegeist

namespace Writegeist

theorem litThenWS_congr (S S2 : Str)
    (h : S.map Char.toLower = S2.map Char.toLower) (rest : Str) :
    litThenWS S rest = litThenWS S2 rest := by
  have hlen : S.length = S2.length := by
    have h2 := congrArg List.length h
    simpa using h2
  unfold litThenWS lowerEq
  rw [hlen, h]

theorem wsThenLit_congr (S S2 : Str)
    (h : S.map Char.toLower = S2.map Char.toLower) :
    ∀ rest, wsThenLit S rest = wsThenLit S2 rest
  | [] => rfl
  | c :: rs => by
    simp only [wsThenLit, litThenWS_congr S S2 h rs,
      wsThenLit_congr S S2 h rs]

theorem matchesHeaderFor_congr (S S2 : Str)
    (h : S.map Char.toLower = S2.map Char.toLower) (l : Str) :
    matchesHeaderFor S l = matchesHeaderFor S2 l := by
  unfold matchesHeaderFor
  cases lstripWS l with
  | nil => rfl
  | cons c1 rest =>
    cases rest with
    | nil => rfl
    | cons c2 rest2 => simp only [wsThenLit_congr S S2 h rest2]

theorem findHeaderIdx_congr (S S2 : Str)
    (h : S.map Char.toLower = S2.map Char.toLower) (lines : List Str) :
    findHeaderIdx S lines = findHeaderIdx S2 lines :=
  findIdxO_congr _ _ lines (matchesHeaderFor_congr S S2 h)

/-- C8: extract_section looks the section up case-insensitively, so
names equal up to case give identical results; an absent section gives
the empty string; a present section gives its lines with leading and
trailing blank lines removed, joined with the newline separator, with
internal blank lines untouched. -/
theorem C8_extract_section_semantics (D S S2 : Str) :
    (S.map Char.toLower = S2.map Char.toLower →
      extract_section D S = extract_section D S2) ∧
    (findHeaderIdx S (pySplitLines D) = none → extract_section D S = []) ∧
    (∀ hi, findHeaderIdx S (pySplitLines D) = some hi →
      extract_section D S =
        joinNL (dropBlankEdges (sectionLinesOf (pySplitLines D) (hi + 1)
          (findSectionEnd (pySplitLines D) (hi + 1))))) := by
  refine ⟨?_, ?_, ?_⟩
  · intro h
    unfold extract_section
    rw [findHeaderIdx_congr S S2 h]
  · intro h
    unfold extract_section
    rw [h]
  · intro hi h
    unfold extract_section
    rw [h]

theorem C8_witness :
    extract_section ("## Chars\n\nx\n\ny\n\n## Next\nz".toList)
        ("chars".toList) =
      extract_section ("## Chars\n\nx\n\ny\n\n## Next\nz".toList)
        ("CHARS".toList) ∧
    extract_section ("## Chars\nx".toList) ("missing".toList) = [] ∧
    extract_section ("## Chars\n\nx\n\ny\n\n## Next\nz".toList)
        ("chars".toList) = ("x\n\ny".toList) := by
  have h1 := (C8_extract_section_semantics
    ("## Chars\n\nx\n\ny\n\n## Next\nz".toList) ("chars".toList)
    ("CHARS".toList)).1 (by decide)
  have h2 := (C8_extract_section_semantics ("## Chars\nx".toList)
    ("missing".toList) ("missing".toList)).2.1 (by decide)
  have h3 := (C8_extract_section_semantics
    ("## Chars\n\nx\n\ny\n\n## Next\nz".toList) ("chars".toList)
    ("chars".toList)).2.2 0 (by decide)
  exact ⟨h1, h2, by rw [h3]; decide⟩

end Writegeist

namespace Writegeist

theorem drop_split_at (lines : List Str) (start e : Nat) (hse : start ≤ e) :
    lines.drop start =
      (lines.drop start).take (e - start) ++ lines.drop e := by
  have h1 := List.take_append_drop (e - start) (lines.drop start)
  rw [List.drop_drop] at h1
  rw [show start + (e - start) = e by omega] at h1
  exact h1.symm

theorem frame_shape_of_self (lines : List Str) (start e : Nat)
    (hse : start ≤ e) :
    ∃ mid, lines = lines.take start ++ mid ++ lines.drop e := by
  refine ⟨(lines.drop start).take (e - start), ?_⟩
  rw [List.append_assoc, ← drop_split_at lines start e hse,
    List.take_append_drop]

theorem frame_shape_append (lines : List Str) (start e : Nat)
    (mid0 : List Str) (hse : start ≤ e) :
    ∃ mid, lines.take e ++ mid0 ++ lines.drop e =
      lines.take start ++ mid ++ lines.drop e := by
  refine ⟨(lines.drop start).take (e - start) ++ mid0, ?_⟩
  rw [show e = start + (e - start) by omega, List.take_add]
  simp [List.append_assoc]

theorem pySplitLines_appendToSection (lines : List Str) (start e : Nat)
    (newClean P : Str) (hnc : newClean ≠ [])
    (hmem : ∀ l ∈ lines, '\n' ∉ l) :
    pySplitLines (appendToSection lines start e newClean P) =
      lines.take e ++
      ((if start < e ∧ ¬(pyStrip (lines.getD (e - 1) [])).isEmpty
        then [[]] else []) ++ pySplitLines P) ++ lines.drop e := by
  unfold appendToSection
  rw [if_neg (by simpa using hnc)]
  apply pySplitLines_joinNL
  · intro h
    rcases List.append_eq_nil.mp h with ⟨h1, h2⟩
    rcases List.append_eq_nil.mp h1 with ⟨h3, h4⟩
    rcases List.append_eq_nil.mp h4 with ⟨h5, h6⟩
    exact pySplitLines_ne_nil P h6
  · intro l hl
    rcases List.mem_append.mp hl with h | h
    · rcases List.mem_append.mp h with h1 | h1
      · exact hmem l ((List.take_prefix e lines).subset h1)
      · rcases List.mem_append.mp h1 with h2 | h2
        · split at h2
          · simp at h2
            simp [h2]
          · simp at h2
        · exact no_newline_of_mem_pySplitLines P l h2
    · exact hmem l ((List.drop_suffix e lines).subset h)

theorem findIdxO_some_lt (p : Str → Bool) (l : List Str) (i : Nat)
    (h : findIdxO p l = some i) : i < l.length :=
  (findIdxO_some_facts p l i h).1

theorem findSectionEnd_ge (lines : List Str) (start : Nat) :
    start ≤ findSectionEnd lines start ∨
      findSectionEnd lines start = lines.length := by
  unfold findSectionEnd
  cases h : findIdxO matchesGenericHeader (lines.drop start) with
  | none => exact Or.inr rfl
  | some k => exact Or.inl (Nat.le_add_right start k)

theorem findSectionEnd_ge_of_le (lines : List Str) (start : Nat)
    (h : start ≤ lines.length) : start ≤ findSectionEnd lines start := by
  rcases findSectionEnd_ge lines start with h1 | h1
  · exact h1
  · omega

theorem findSectionEnd_le (lines : List Str) (start : Nat) :
    findSectionEnd lines start ≤ lines.length := by
  unfold findSectionEnd
  cases hf : findIdxO matchesGenericHeader (lines.drop start) with
  | none => exact Nat.le_refl _
  | some k =>
    have h2 := findIdxO_some_lt _ _ _ hf
    rw [List.length_drop] at h2
    show start + k ≤ lines.length
    omega

theorem pySplitLines_joinNL_append (A B : List Str) (hA : A ≠ [])
    (h2 : ∀ l ∈ A, '\n' ∉ l) (hB : B ≠ []) :
    pySplitLines (joinNL (A ++ B)) = A ++ pySplitLines (joinNL B) := by
  rw [joinNL_append A B hA hB]
  exact pySplitLines_joinNL_prefix A (joinNL B) hA h2

/-- C7: every line of the document outside the target region — the
preamble up to and including the header, and everything from the next
header on — is identical before and after a merge, whether the patch
is accepted, rejected, or creates a new section at the end. -/
theorem C7_frame_property (D S P : Str) :
    ∃ mid, pySplitLines (apply_patch_to_section D S P) =
      (pySplitLines D).take (sectionStartOf D S) ++ mid ++
        (pySplitLines D).drop (sectionEndOf D S) := by
  cases hf : findHeaderIdx S (pySplitLines D) with
  | none =>
    rw [apply_eq_absent D S P hf]
    unfold sectionStartOf sectionEndOf
    rw [hf]
    rw [List.take_length, List.drop_length]
    simp only [List.append_nil]
    unfold absentCase
    split
    · rw [List.append_assoc]
      exact ⟨pySplitLines (joinNL ([[]] ++
          headerLineFor S :: [] :: pySplitLines P)),
        pySplitLines_joinNL_append (pySplitLines D) _
          (pySplitLines_ne_nil D) (no_newline_of_mem_pySplitLines D)
          (by simp)⟩
    · exact ⟨pySplitLines (joinNL (headerLineFor S :: [] :: pySplitLines P)),
        pySplitLines_joinNL_append (pySplitLines D) _
          (pySplitLines_ne_nil D) (no_newline_of_mem_pySplitLines D)
          (by simp)⟩
  | some hi =>
    rw [apply_eq_found D S P hi hf]
    unfold sectionStartOf sectionEndOf
    rw [hf]
    have hlt : hi < (pySplitLines D).length := findIdxO_some_lt _ _ _ hf
    have hse : hi + 1 ≤ findSectionEnd (pySplitLines D) (hi + 1) :=
      findSectionEnd_ge_of_le _ _ (by omega)
    have key : foundCase D (pySplitLines D) P (hi + 1)
          (findSectionEnd (pySplitLines D) (hi + 1)) = D ∨
        (foundCase D (pySplitLines D) P (hi + 1)
            (findSectionEnd (pySplitLines D) (hi + 1)) =
          appendToSection (pySplitLines D) (hi + 1)
            (findSectionEnd (pySplitLines D) (hi + 1)) (pyStrip P) P ∧
          pyStrip P ≠ []) := by
      unfold foundCase
      by_cases h1 : isSubstring (pyStrip P)
          (pyStrip (joinNL (sectionLinesOf (pySplitLines D) (hi + 1)
            (findSectionEnd (pySplitLines D) (hi + 1))))) = true
      · rw [if_pos h1]
        exact Or.inl rfl
      · have hnn : pyStrip P ≠ [] :=
          newClean_ne_nil_of_not_contained P _ (by simpa using h1)
        rw [if_neg h1]
        by_cases h2 : (pyStrip P).take 2 = ['*', ' ']
        · rw [if_pos h2]
          by_cases h3 : bulletReject (pySplitLines (pyStrip P))
              (sectionLinesOf (pySplitLines D) (hi + 1)
                (findSectionEnd (pySplitLines D) (hi + 1))) = true
          · rw [if_pos h3]
            exact Or.inl rfl
          · rw [if_neg h3]
            exact Or.inr ⟨rfl, hnn⟩
        · rw [if_neg h2]
          by_cases h4 : proseReject (pyStrip P)
              (pyStrip (joinNL (sectionLinesOf (pySplitLines D) (hi + 1)
                (findSectionEnd (pySplitLines D) (hi + 1))))) = true
          · rw [if_pos h4]
            exact Or.inl rfl
          · rw [if_neg h4]
            exact Or.inr ⟨rfl, hnn⟩
    rcases key with hk | ⟨hk, hnn⟩
    · rw [hk]
      exact frame_shape_of_self (pySplitLines D) (hi + 1)
        (findSectionEnd (pySplitLines D) (hi + 1)) hse
    · rw [hk, pySplitLines_appendToSection _ _ _ _ _ hnn
        (no_newline_of_mem_pySplitLines D)]
      exact frame_shape_append (pySplitLines D) (hi + 1)
        (findSectionEnd (pySplitLines D) (hi + 1)) _ hse

end Writegeist

namespace Writegeist

theorem no_newline_headerLineFor (S : Str) (hS : '\n' ∉ S) :
    '\n' ∉ headerLineFor S := by
  rw [headerLineFor]
  intro hmem
  rcases List.mem_cons.mp hmem with h | h
  · exact absurd h (by decide)
  · rcases List.mem_cons.mp h with h2 | h2
    · exact absurd h2 (by decide)
    · rcases List.mem_cons.mp h2 with h3 | h3
      · exact absurd h3 (by decide)
      · exact hS h3

theorem second_merge_fixed_absent (lines : List Str) (S P : Str)
    (hmemD : ∀ l ∈ lines, '\n' ∉ l) (hlne : lines ≠ [])
    (hfind : findIdxO (matchesHeaderFor S) lines = none)
    (hS : '\n' ∉ S)
    (hP : ∀ l ∈ pySplitLines P, matchesGenericHeader l = false) :
    apply_patch_to_section (absentCase lines S P) S P =
      absentCase lines S P := by
  have hmain : ∀ lines2 : List Str, lines2 ≠ [] →
      findIdxO (matchesHeaderFor S) lines2 = none →
      (∀ l ∈ lines2, '\n' ∉ l) →
      apply_patch_to_section
        (joinNL (lines2 ++ headerLineFor S :: [] :: pySplitLines P)) S P =
        joinNL (lines2 ++ headerLineFor S :: [] :: pySplitLines P) := by
    intro lines2 h1 h2 h3
    have hsplitR : pySplitLines
        (joinNL (lines2 ++ headerLineFor S :: [] :: pySplitLines P)) =
        lines2 ++ headerLineFor S :: [] :: pySplitLines P := by
      apply pySplitLines_joinNL
      · intro hnil
        rcases List.append_eq_nil.mp hnil with ⟨-, h5⟩
        simp at h5
      · intro l hl
        rcases List.mem_append.mp hl with h4 | h4
        · exact h3 l h4
        · rcases List.mem_cons.mp h4 with h5 | h5
          · rw [h5]
            exact no_newline_headerLineFor S hS
          · rcases List.mem_cons.mp h5 with h6 | h6
            · simp [h6]
            · exact no_newline_of_mem_pySplitLines P l h6
    have hfindR : findIdxO (matchesHeaderFor S)
        (lines2 ++ headerLineFor S :: [] :: pySplitLines P) =
        some lines2.length := by
      rw [findIdxO_append_none _ _ _ h2]
      have hhead : findIdxO (matchesHeaderFor S)
          (headerLineFor S :: [] :: pySplitLines P) = some 0 := by
        unfold findIdxO
        rw [if_pos (matchesHeaderFor_headerLine S)]
      rw [hhead, Option.map_some']
      simp
    have hdropR : (lines2 ++ headerLineFor S :: [] :: pySplitLines P).drop
        (lines2.length + 1) = [] :: pySplitLines P := by
      rw [show lines2 ++ headerLineFor S :: [] :: pySplitLines P =
        (lines2 ++ [headerLineFor S]) ++ [] :: pySplitLines P by simp]
      exact List.drop_left' (by simp)
    have hendR : findSectionEnd
        (lines2 ++ headerLineFor S :: [] :: pySplitLines P)
        (lines2.length + 1) =
        (lines2 ++ headerLineFor S :: [] :: pySplitLines P).length := by
      have hnone : findIdxO matchesGenericHeader
          ((lines2 ++ headerLineFor S :: [] :: pySplitLines P).drop
            (lines2.length + 1)) = none := by
        rw [hdropR]
        apply (findIdxO_eq_none_iff _ _).mpr
        intro x hx
        rcases List.mem_cons.mp hx with h4 | h4
        · rw [h4]
          exact matchesGenericHeader_nil
        · exact hP x h4
      unfold findSectionEnd
      rw [hnone]
    have hsecR : sectionLinesOf
        (lines2 ++ headerLineFor S :: [] :: pySplitLines P)
        (lines2.length + 1)
        ((lines2 ++ headerLineFor S :: [] :: pySplitLines P).length) =
        [] :: pySplitLines P := by
      unfold sectionLinesOf
      rw [hdropR]
      rw [show (lines2 ++ headerLineFor S :: [] :: pySplitLines P).length -
        (lines2.length + 1) = ([] :: pySplitLines P).length by simp; omega]
      exact List.take_length _
    have hjoinR : joinNL ([] :: pySplitLines P) = '\n' :: P := by
      rw [joinNL_cons _ _ (pySplitLines_ne_nil P), joinNL_pySplitLines]
      rfl
    have hsub : isSubstring (pyStrip P)
        (pyStrip (joinNL (sectionLinesOf
          (lines2 ++ headerLineFor S :: [] :: pySplitLines P)
          (lines2.length + 1)
          ((lines2 ++ headerLineFor S :: [] :: pySplitLines P).length)))) =
        true := by
      rw [hsecR, hjoinR, pyStrip_cons_ws _ _ pyWS_newline]
      exact isSubstring_refl _
    rw [apply_eq_found _ S P lines2.length
      (by rw [findHeaderIdx, hsplitR]; exact hfindR)]
    rw [hsplitR, hendR]
    exact foundCase_contained _ _ _ _ _ hsub
  unfold absentCase
  split
  · apply hmain
    · simp
    · apply (findIdxO_eq_none_iff _ _).mpr
      intro x hx
      rcases List.mem_append.mp hx with h | h
      · exact (findIdxO_eq_none_iff _ _).mp hfind x h
      · simp at h
        rw [h]
        exact matchesHeaderFor_nil S
    · intro l hl
      rcases List.mem_append.mp hl with h | h
      · exact hmemD l h
      · simp at h
        simp [h]
  · exact hmain lines hlne hfind hmemD

end Writegeist

namespace Writegeist

theorem second_merge_fixed (lines : List Str) (S P : Str) (hi e : Nat)
    (hmemD : ∀ l ∈ lines, '\n' ∉ l)
    (hfind : findIdxO (matchesHeaderFor S) lines = some hi)
    (he : findSectionEnd lines (hi + 1) = e)
    (hP : ∀ l ∈ pySplitLines P, matchesGenericHeader l = false)
    (hnn : pyStrip P ≠ []) :
    apply_patch_to_section
        (appendToSection lines (hi + 1) e (pyStrip P) P) S P =
      appendToSection lines (hi + 1) e (pyStrip P) P := by
  have hlt : hi < lines.length := findIdxO_some_lt _ _ _ hfind
  have hse : hi + 1 ≤ e := by
    rw [← he]
    exact findSectionEnd_ge_of_le _ _ (by omega)
  have hel : e ≤ lines.length := by
    rw [← he]
    exact findSectionEnd_le _ _
  obtain ⟨M, hMg, hMn, hMeq⟩ : ∃ M : List Str,
      (∀ l ∈ M, matchesGenericHeader l = false) ∧ (∀ l ∈ M, '\n' ∉ l) ∧
      (if hi + 1 < e ∧ ¬(pyStrip (lines.getD (e - 1) [])).isEmpty
       then ([[]] : List Str) else []) = M := by
    refine ⟨_, ?_, ?_, rfl⟩
    · intro l hl
      split at hl
      · simp at hl
        rw [hl]
        exact matchesGenericHeader_nil
      · simp at hl
    · intro l hl
      split at hl
      · simp at hl
        simp [hl]
      · simp at hl
  have hsplit2 := pySplitLines_appendToSection lines (hi + 1) e (pyStrip P) P
    hnn hmemD
  rw [hMeq] at hsplit2
  have hlen_take : (lines.take e).length = e := by
    rw [List.length_take]
    omega
  have htake_e : findIdxO (matchesHeaderFor S) (lines.take e) = some hi :=
    findIdxO_take_of_lt _ _ _ _ hfind (by omega)
  have hfind2 : findIdxO (matchesHeaderFor S)
      (lines.take e ++ (M ++ pySplitLines P) ++ lines.drop e) = some hi := by
    rw [List.append_assoc]
    exact findIdxO_append_some _ _ _ _ htake_e
  have hdrop2 : (lines.take e ++ (M ++ pySplitLines P) ++ lines.drop e).drop
      (hi + 1) =
      ((lines.drop (hi + 1)).take (e - (hi + 1)) ++ (M ++ pySplitLines P)) ++
        lines.drop e := by
    rw [List.drop_append_of_le_length (by rw [List.length_append]; omega),
      List.drop_append_of_le_length (by omega), List.drop_take]
  have hA1len : ((lines.drop (hi + 1)).take (e - (hi + 1))).length =
      e - (hi + 1) := by
    rw [List.length_take, List.length_drop]
    omega
  have hcases := he
  unfold findSectionEnd at hcases
  have hABfacts : (∀ x ∈ (lines.drop (hi + 1)).take (e - (hi + 1)),
        matchesGenericHeader x = false) ∧
      (lines.drop e = [] ∨ ∃ y ys, lines.drop e = y :: ys ∧
        matchesGenericHeader y = true) := by
    cases hidx : findIdxO matchesGenericHeader (lines.drop (hi + 1)) with
    | none =>
      rw [hidx] at hcases
      have hlen_e : lines.length = e := hcases
      constructor
      · intro x hx
        exact (findIdxO_eq_none_iff _ _).mp hidx x
          ((List.take_prefix _ _).subset hx)
      · left
        rw [← hlen_e]
        exact List.drop_length lines
    | some k =>
      rw [hidx] at hcases
      have hk_e : hi + 1 + k = e := hcases
      rcases findIdxO_some_facts _ _ _ hidx with ⟨hklt, htakef, y, ys, hdy, hgy⟩
      constructor
      · intro x hx
        apply htakef
        rw [show e - (hi + 1) = k by omega] at hx
        exact hx
      · right
        refine ⟨y, ys, ?_, hgy⟩
        rw [show lines.drop e = (lines.drop (hi + 1)).drop k by
          rw [List.drop_drop]
          rw [show hi + 1 + k = e from hk_e]]
        exact hdy
  have hnoneAM : findIdxO matchesGenericHeader
      ((lines.drop (hi + 1)).take (e - (hi + 1)) ++ (M ++ pySplitLines P)) =
      none := by
    apply (findIdxO_eq_none_iff _ _).mpr
    intro x hx
    rcases List.mem_append.mp hx with h | h
    · exact hABfacts.1 x h
    · rcases List.mem_append.mp h with h2 | h2
      · exact hMg x h2
      · exact hP x h2
  have hend2 : findSectionEnd
      (lines.take e ++ (M ++ pySplitLines P) ++ lines.drop e) (hi + 1) =
      e + (M ++ pySplitLines P).length := by
    have hidx2 : findIdxO matchesGenericHeader
        ((lines.take e ++ (M ++ pySplitLines P) ++ lines.drop e).drop
          (hi + 1)) =
        (findIdxO matchesGenericHeader (lines.drop e)).map
          (· + ((lines.drop (hi + 1)).take (e - (hi + 1)) ++
            (M ++ pySplitLines P)).length) := by
      rw [hdrop2]
      exact findIdxO_append_none _ _ _ hnoneAM
    rcases hABfacts.2 with hB | ⟨y, ys, hB, hgy⟩
    · have hBnone : findIdxO matchesGenericHeader (lines.drop e) = none := by
        rw [hB]
        rfl
      rw [hBnone] at hidx2
      have hlen_e : lines.length = e := by
        have := List.length_drop e lines
        rw [hB] at this
        simp at this
        omega
      unfold findSectionEnd
      rw [hidx2]
      show (lines.take e ++ (M ++ pySplitLines P) ++ lines.drop e).length =
        e + (M ++ pySplitLines P).length
      rw [hB]
      simp [hlen_take]
    · have hBsome : findIdxO matchesGenericHeader (lines.drop e) = some 0 := by
        rw [hB]
        unfold findIdxO
        rw [if_pos hgy]
      rw [hBsome] at hidx2
      unfold findSectionEnd
      rw [hidx2]
      show hi + 1 + (0 + ((lines.drop (hi + 1)).take (e - (hi + 1)) ++
        (M ++ pySplitLines P)).length) = e + (M ++ pySplitLines P).length
      rw [List.length_append, hA1len]
      omega
  have hsec2 : sectionLinesOf
      (lines.take e ++ (M ++ pySplitLines P) ++ lines.drop e) (hi + 1)
      (e + (M ++ pySplitLines P).length) =
      (lines.drop (hi + 1)).take (e - (hi + 1)) ++ (M ++ pySplitLines P) := by
    unfold sectionLinesOf
    rw [hdrop2]
    apply List.take_left'
    rw [List.length_append, hA1len]
    omega
  have hinfix : pyStrip P <:+:
      joinNL ((lines.drop (hi + 1)).take (e - (hi + 1)) ++
        (M ++ pySplitLines P)) := by
    rw [← List.append_assoc]
    cases hAM : (lines.drop (hi + 1)).take (e - (hi + 1)) ++ M with
    | nil =>
      rw [List.nil_append, joinNL_pySplitLines]
      exact pyStrip_infix_self P
    | cons a as =>
      rw [joinNL_append _ _ (by simp) (pySplitLines_ne_nil P),
        joinNL_pySplitLines]
      exact ((pyStrip_infix_self P).trans
        (List.suffix_cons '\n' P).isInfix).trans
        (List.suffix_append _ _).isInfix
  have hsub2 : isSubstring (pyStrip P)
      (pyStrip (joinNL (sectionLinesOf
        (lines.take e ++ (M ++ pySplitLines P) ++ lines.drop e) (hi + 1)
        (e + (M ++ pySplitLines P).length)))) = true := by
    rw [hsec2]
    apply (isSubstring_iff _ _).mpr
    exact infix_pyStrip _ _ (pyStrip_idem P) hinfix
  rw [apply_eq_found _ S P hi (by rw [findHeaderIdx, hsplit2]; exact hfind2)]
  rw [hsplit2, hend2]
  exact foundCase_contained _ _ _ _ _ hsub2

end Writegeist

namespace Writegeist

theorem foundCase_cases (D : Str) (lines : List Str) (P : Str)
    (start e : Nat) :
    foundCase D lines P start e = D ∨
      (foundCase D lines P start e =
        appendToSection lines start e (pyStrip P) P ∧ pyStrip P ≠ []) := by
  unfold foundCase
  by_cases h1 : isSubstring (pyStrip P)
      (pyStrip (joinNL (sectionLinesOf lines start e))) = true
  · rw [if_pos h1]
    exact Or.inl rfl
  · have hnn : pyStrip P ≠ [] :=
      newClean_ne_nil_of_not_contained P _ (by simpa using h1)
    rw [if_neg h1]
    by_cases h2 : (pyStrip P).take 2 = ['*', ' ']
    · rw [if_pos h2]
      by_cases h3 : bulletReject (pySplitLines (pyStrip P))
          (sectionLinesOf lines start e) = true
      · rw [if_pos h3]
        exact Or.inl rfl
      · rw [if_neg h3]
        exact Or.inr ⟨rfl, hnn⟩
    · rw [if_neg h2]
      by_cases h4 : proseReject (pyStrip P)
          (pyStrip (joinNL (sectionLinesOf lines start e))) = true
      · rw [if_pos h4]
        exact Or.inl rfl
      · rw [if_neg h4]
        exact Or.inr ⟨rfl, hnn⟩

/-- C1 counterexample: a patch whose content contains a header line is
not merged idempotently — the first merge creates the target section
at the end, the header line inside the patch then ends the section
early, every later merge fails to see the earlier content as a
duplicate, and the patch is appended again. -/
theorem C1_counterexample :
    apply_patch_to_section (apply_patch_to_section ("x".toList)
        ("S".toList) ("## Bar\nabc".toList)) ("S".toList)
        ("## Bar\nabc".toList) ≠
      apply_patch_to_section ("x".toList) ("S".toList)
        ("## Bar\nabc".toList) := by
  decide

/-- C1 amended: merge is idempotent for every document, section name
and patch content, provided the section name contains no newline and
no line of the patch content itself matches the generic header
pattern (optional whitespace, two hash marks, whitespace). -/
theorem C1_amended_idempotent (D S P : Str) (hS : '\n' ∉ S)
    (hP : ∀ l ∈ pySplitLines P, matchesGenericHeader l = false) :
    apply_patch_to_section (apply_patch_to_section D S P) S P =
      apply_patch_to_section D S P := by
  cases hf : findHeaderIdx S (pySplitLines D) with
  | none =>
    rw [apply_eq_absent D S P hf]
    exact second_merge_fixed_absent (pySplitLines D) S P
      (no_newline_of_mem_pySplitLines D) (pySplitLines_ne_nil D) hf hS hP
  | some hi =>
    have happ := apply_eq_found D S P hi hf
    rcases foundCase_cases D (pySplitLines D) P (hi + 1)
        (findSectionEnd (pySplitLines D) (hi + 1)) with hk | ⟨hk, hnn⟩
    · have hDP : apply_patch_to_section D S P = D := happ.trans hk
      rw [hDP]
      exact hDP
    · have hDP : apply_patch_to_section D S P =
          appendToSection (pySplitLines D) (hi + 1)
            (findSectionEnd (pySplitLines D) (hi + 1)) (pyStrip P) P :=
        happ.trans hk
      rw [hDP]
      exact second_merge_fixed (pySplitLines D) S P hi
        (findSectionEnd (pySplitLines D) (hi + 1))
        (no_newline_of_mem_pySplitLines D) hf rfl hP hnn

theorem C1_amended_witness :
    ('\n' ∉ ("S".toList) ∧
      ∀ l ∈ pySplitLines ("abc".toList), matchesGenericHeader l = false) ∧
      apply_patch_to_section (apply_patch_to_section ("x".toList)
        ("S".toList) ("abc".toList)) ("S".toList) ("abc".toList) =
        apply_patch_to_section ("x".toList) ("S".toList) ("abc".toList) :=
  ⟨⟨by decide, by decide⟩,
    C1_amended_idempotent ("x".toList) ("S".toList) ("abc".toList)
      (by decide) (by decide)⟩

end Writegeist
